import Mathlib

/-!
Verification of the audio-processing library (capability registry,
format converter, track isolator) against its specification.

Python strings are modelled as `List Char` (`Str`), `pathlib.Path`
values as a parent directory together with a file name, dictionaries as
association lists, the filesystem as a function from paths to contents,
and raised exceptions as `Except` / `Option` error values.
-/

namespace TabsAI

/-- Python strings are modelled as lists of characters. -/
abbrev Str := List Char

/-- ASCII whitespace, the fragment of the regex class matched by the
capability lines (`src/audio_processing/ffmpeg_utils.py` uses the regex
whitespace class; the listing output is ASCII). -/
def pyIsSpace (c : Char) : Bool :=
  c = ' ' || c = '\t' || c = '\n' || c = '\x0b' || c = '\x0c' || c = '\r'

/-- Python `str.lower()` restricted to ASCII case mapping (sufficient for
the file suffixes compared in `file_utils.py`). -/
def pyLower (s : Str) : Str := s.map Char.toLower

/-- Python `str.strip()`: remove leading and trailing whitespace. -/
def pyStrip (s : Str) : Str :=
  ((s.dropWhile pyIsSpace).reverse.dropWhile pyIsSpace).reverse

/-- Python `str.split(',')`: split at every comma, keeping empty pieces. -/
def splitOnComma : Str → List Str
  | [] => [[]]
  | c :: cs =>
    if c = ',' then [] :: splitOnComma cs
    else
      match splitOnComma cs with
      | g :: gs => (c :: g) :: gs
      | [] => [[c]]

/-! ### The capability-line regex

`_build_audio_formats_dict` matches each line of the listing against
`^\s*([D\s])([E\s])\s+(\S+)\s+.*$` with `re.match`.  The functions below
implement that match with the engine's backtracking semantics: the
greedy `\s*` consumes as much whitespace as possible and gives characters
back one at a time on failure of the remainder; the remainder
(`([D\s])([E\s])\s+(\S+)\s+.*$`) is deterministic because consecutive
pieces use complementary character classes. -/

/-- Match `\s+(\S+)\s+.*$` against `p`, returning group 3 on success. -/
def matchTail (p : Str) : Option Str :=
  match p with
  | [] => none
  | c :: rest =>
    if pyIsSpace c then
      let afterWs := rest.dropWhile pyIsSpace
      let g3 := afterWs.takeWhile (fun x => !pyIsSpace x)
      let afterG3 := afterWs.dropWhile (fun x => !pyIsSpace x)
      if g3 = [] then none
      else if afterG3 = [] then none
      else some g3
    else none

/-- Match `([D\s])([E\s])\s+(\S+)\s+.*$` at the current position. -/
def matchFlags (s : Str) : Option (Char × Char × Str) :=
  match s with
  | c1 :: c2 :: rest =>
    if (c1 = 'D' || pyIsSpace c1) && (c2 = 'E' || pyIsSpace c2) then
      match matchTail rest with
      | some g3 => some (c1, c2, g3)
      | none => none
    else none
  | _ => none

/-- `re.match` of the full pattern: the greedy `^\s*` first consumes each
whitespace character, backtracking to start the flag groups earlier when
the remainder fails. -/
def reMatchLine : Str → Option (Char × Char × Str)
  | [] => none
  | c :: rest =>
    if pyIsSpace c then
      match reMatchLine rest with
      | some r => some r
      | none => matchFlags (c :: rest)
    else matchFlags (c :: rest)

/-! ### The capability dictionary -/

/-- The parsed capability dictionary `dict[str, list[bool]]`: each format
name maps to its `[demuxable, muxable]` pair.  Modelled as an association
list with unique keys in insertion order, mirroring a Python `dict`. -/
abbrev Fmts := List (Str × (Bool × Bool))

/-- Python `d[k] = v`: update the existing entry in place, else append. -/
def dictInsert (d : Fmts) (k : Str) (v : Bool × Bool) : Fmts :=
  if d.any (fun kv => kv.1 = k) then
    d.map (fun kv => if kv.1 = k then (k, v) else kv)
  else d ++ [(k, v)]

/-- Python `d[k]` / `k in d`: look the key up. -/
def dictLookup (d : Fmts) (k : Str) : Option (Bool × Bool) :=
  (d.find? (fun kv => kv.1 = k)).map (fun kv => kv.2)

/-- Process one line of the listing: on a regex match, insert every
comma-separated alias with the line's `(demuxable, muxable)` pair
(`ffmpeg_utils.py`, lines 70-80). -/
def processLine (d : Fmts) (line : Str) : Fmts :=
  match reMatchLine line with
  | none => d
  | some (c1, c2, g3) =>
    let demuxable := c1 = 'D'
    let muxable := c2 = 'E'
    (splitOnComma g3).foldl
      (fun acc n => dictInsert acc (pyStrip n) (demuxable, muxable)) d

/-- `_build_audio_formats_dict`, parametrised by the lines of the
`ffmpeg -formats` output (the subprocess call is external; `splitlines`
provides the line list). -/
def build_audio_formats_dict (lines : List Str) : Fmts :=
  lines.foldl processLine []

/-! ### Format validation -/

/-- The audio errors raised by `_validate_audio_formats`; each carries the
offending format and path (`errors.py` is referenced by the source but
each error is constructed with `(format, path)`). -/
inductive AudioError where
  | formatUnsupported (fmt : Str) (path : Str)
  | demuxing (fmt : Str) (path : Str)
  | muxing (fmt : Str) (path : Str)
deriving DecidableEq

/-- `_validate_audio_formats` (`ffmpeg_utils.py`, lines 133-161),
parametrised by the loaded capability dictionary (the source obtains it
from `_load_audio_formats_dict()`).  Returns `some e` when the Python
code raises `e`, `none` when it returns normally. -/
def validate_audio_formats (supported_formats : Fmts)
    (input_format : Str) (input_path : Str)
    (output_format : Str) (output_path : Str) : Option AudioError :=
  match dictLookup supported_formats input_format with
  | none => some (.formatUnsupported input_format input_path)
  | some inFlags =>
    if !inFlags.1 then some (.demuxing input_format input_path)
    else
      match dictLookup supported_formats output_format with
      | none => some (.formatUnsupported output_format output_path)
      | some outFlags =>
        if !outFlags.2 then some (.muxing output_format output_path)
        else none

/-! ### Paths

`pathlib.PurePath` values are modelled as a parent directory (kept
opaque) together with a file name; `stem`, `suffix` and `with_suffix`
are computed from the name exactly as `pathlib` does: the suffix is the
part of the name from its last dot, provided that dot is neither the
first nor the last character of the name. -/

structure PyPath where
  parent : Str
  name : Str
deriving DecidableEq

/-- Split a file name into `(stem, suffix)` following `pathlib`: look for
the last `'.'`; the split is valid only when characters precede it and
follow it, otherwise the suffix is empty. -/
def splitName (cs : Str) : Str × Str :=
  match cs.reverse.dropWhile (fun c => c ≠ '.') with
  | [] => (cs, [])
  | _ :: restRev =>
    let extRev := cs.reverse.takeWhile (fun c => c ≠ '.')
    if restRev = [] then (cs, [])
    else if extRev = [] then (cs, [])
    else (restRev.reverse, '.' :: extRev.reverse)

/-- `Path.stem`. -/
def PyPath.stem (p : PyPath) : Str := (splitName p.name).1

/-- `Path.suffix`. -/
def PyPath.suffix (p : PyPath) : Str := (splitName p.name).2

/-- `Path.with_suffix(s)` for a path with a non-empty name: replace the
suffix (`pathlib` raises `ValueError` on an empty name; the caller in
`convert_to_wav` is modelled with that error case explicit). -/
def PyPath.withSuffix (p : PyPath) (s : Str) : PyPath :=
  ⟨p.parent, p.stem ++ s⟩

/-! ### Registry persistence and the `lru_cache` (C4, C9) -/

/-- The errors `_load_audio_formats_dict` can raise: `FileNotFoundError`
(the spec's RegistryNotFound) and `json.JSONDecodeError` (the spec's
RegistryCorrupt). -/
inductive LoadError where
  | fileNotFound (path : PyPath)
  | jsonDecodeError
deriving DecidableEq

/-- The files on disk: each path optionally holds a text content. -/
abbrev TextFS := PyPath → Option Str

/-- `_load_audio_formats_dict.__wrapped__` (`ffmpeg_utils.py`, lines
124-130): check existence, then parse; `json.load` is the external JSON
parser, passed in as `parseJson`. -/
def load_audio_formats_dict (files : TextFS) (parseJson : Str → Option Fmts)
    (save_path : PyPath) : Except LoadError Fmts :=
  match files save_path with
  | none => .error (.fileNotFound save_path)
  | some content =>
    match parseJson content with
    | none => .error .jsonDecodeError
    | some data => .ok data

/-- The observable outcome of one call through the `lru_cache(maxsize=1)`
wrapper: the returned value or raised error, the cache afterwards, and
the paths whose file was read during the call. -/
structure CachedCall where
  result : Except LoadError Fmts
  cacheAfter : Option (PyPath × Fmts)
  readPaths : List PyPath

/-- `_load_audio_formats_dict` behind `@lru_cache(maxsize=1)`: the cache
is keyed on the path argument; a hit returns the stored value without
touching the filesystem; a miss runs the wrapped function, caching the
result (and evicting the previous entry) only on success — `lru_cache`
does not cache raised exceptions. -/
def cached_load_audio_formats_dict (files : TextFS)
    (parseJson : Str → Option Fmts) (cache : Option (PyPath × Fmts))
    (save_path : PyPath) : CachedCall :=
  match cache with
  | some (p0, m0) =>
    if p0 = save_path then ⟨.ok m0, some (p0, m0), []⟩
    else
      match load_audio_formats_dict files parseJson save_path with
      | .ok m => ⟨.ok m, some (save_path, m), [save_path]⟩
      | .error e => ⟨.error e, some (p0, m0), [save_path]⟩
  | none =>
    match load_audio_formats_dict files parseJson save_path with
    | .ok m => ⟨.ok m, some (save_path, m), [save_path]⟩
    | .error e => ⟨.error e, none, [save_path]⟩

/-! ### The format converter (C5, C6, C10) -/

/-- Which paths currently hold a file (contents are irrelevant to the
converter claims). -/
abbrev FSet := PyPath → Bool

/-- Create or delete the file at one path. -/
def setFile (fs : FSet) (p : PyPath) (b : Bool) : FSet :=
  fun q => if q = p then b else fs q

/-- Errors observable from `convert_to_wav`: `pathlib.with_suffix` raises
`ValueError` on an empty name; `AudioSegment.from_file` fails when the
input file is missing; `Path.unlink` raises `FileNotFoundError` when the
file to delete is missing. -/
inductive ConvertError where
  | invalidName
  | decodeFailed
  | unlinkMissing
deriving DecidableEq

/-- `convert_to_wav` (`file_utils.py`, lines 11-32): return the input
unchanged when its suffix already lowercases to `.wav`; otherwise compute
the sibling `.wav` path, decode the input (external; fails if the file is
absent), export the `.wav` file, and delete the input unless
`keep_input_file`. -/
def convert_to_wav (fs : FSet) (input_path : PyPath)
    (keep_input_file : Bool) : Except ConvertError (PyPath × FSet) :=
  if pyLower input_path.suffix = ".wav".data then .ok (input_path, fs)
  else if input_path.name = [] then .error .invalidName
  else if !fs input_path then .error .decodeFailed
  else if keep_input_file then
    .ok (input_path.withSuffix ".wav".data,
      setFile fs (input_path.withSuffix ".wav".data) true)
  else if setFile fs (input_path.withSuffix ".wav".data) true input_path then
    .ok (input_path.withSuffix ".wav".data,
      setFile (setFile fs (input_path.withSuffix ".wav".data) true)
        input_path false)
  else .error .unlinkMissing

/-! ### Source separation (C7, C8) -/

/-- Waveforms are opaque tokens: the model claims never inspect sample
data, only identity. -/
abbrev Waveform := Nat

/-- Audio files on disk: each path optionally holds a waveform together
with its sample rate (what `torchaudio.load` returns and
`torchaudio.save` writes). -/
abbrev AudioFS := PyPath → Option (Waveform × Nat)

/-- The pretrained separation model, abstracted to its declared source
classes and its (externally computed) per-source output waveforms. -/
structure HTDemucs where
  sources : List Str
  separate : Waveform → List Waveform

/-- Errors observable from the isolator: `list.index` raises `ValueError`
when the requested stem is not among `model.sources` (the spec's
StemNotFound); tensor indexing raises `IndexError` out of range;
`torchaudio.load` fails when the file is missing. -/
inductive SepError where
  | stemNotFound (stem : Str)
  | indexError
  | loadFailed (path : PyPath)
deriving DecidableEq

/-- Python `list.index(x)`: position of the first occurrence, `ValueError`
(here `.stemNotFound`) when absent. -/
def pyListIndex (xs : List Str) (x : Str) : Except SepError Nat :=
  match xs with
  | [] => .error (.stemNotFound x)
  | y :: ys =>
    if y = x then .ok 0
    else
      match pyListIndex ys x with
      | .ok i => .ok (i + 1)
      | .error e => .error e

/-- Modelled from the spec: `isolate`'s stem selection with an arbitrary
`stemName` (§4.3 `isolate(audioPath, stemName="guitar")`); the source
file under `src/` only contains the specialization with the stem fixed to
`"guitar"` (`source_separation.py`, `_isolate_guitar_waveform`, lines
30-51), whose body this follows: run the model on the waveform, look the
stem up in `model.sources`, and select that output channel. -/
def isolate_stem_waveform (model : HTDemucs) (stemName : Str)
    (waveform : Waveform) : Except SepError Waveform :=
  let separated_waveforms := model.separate waveform
  match pyListIndex model.sources stemName with
  | .error e => .error e
  | .ok i =>
    match separated_waveforms.get? i with
    | some w => .ok w
    | none => .error .indexError

/-- `_isolate_guitar_waveform` (`source_separation.py`, lines 30-51): the
stem is fixed to `"guitar"`. -/
def isolate_guitar_waveform (model : HTDemucs) (waveform : Waveform) :
    Except SepError Waveform :=
  isolate_stem_waveform model "guitar".data waveform

/-- `_save_isolated_track` (`source_separation.py`, lines 54-74, identical
copy in `file_utils.py`, lines 35-55): write the waveform at
`{base_path.stem}_{track_name}.wav` in `base_path`'s directory, returning
that path.  `torchaudio.save` overwrites the target path. -/
def save_isolated_track (fs : AudioFS) (waveform : Waveform)
    (track_name : Str) (sample_rate : Nat) (base_path : PyPath) :
    PyPath × AudioFS :=
  let save_directory := base_path.parent
  let new_filename := base_path.stem ++ '_' :: track_name ++ ".wav".data
  let track_path : PyPath := ⟨save_directory, new_filename⟩
  (track_path, fun q =>
    if q = track_path then some (waveform, sample_rate) else fs q)

/-- `torchaudio.load`: decode the file to a waveform and its sample rate;
fails when the file is absent. -/
def torchaudio_load (fs : AudioFS) (p : PyPath) :
    Except SepError (Waveform × Nat) :=
  match fs p with
  | some ws => .ok ws
  | none => .error (.loadFailed p)

/-- `isolate_guitar` (`source_separation.py`, lines 77-96), parametrised
by the memoized model and the filesystem: load the file, isolate the
guitar stem, save it beside the source. -/
def isolate_guitar (model : HTDemucs) (fs : AudioFS) (audio_path : PyPath) :
    Except SepError (PyPath × AudioFS) :=
  match torchaudio_load fs audio_path with
  | .error e => .error e
  | .ok (waveform, sample_rate) =>
    match isolate_guitar_waveform model waveform with
    | .error e => .error e
    | .ok guitar_waveform =>
      .ok (save_isolated_track fs guitar_waveform "guitar".data
        sample_rate audio_path)

/-! ### Dictionary lemmas -/

theorem find?_map_update_self (k : Str) (v : Bool × Bool) :
    ∀ d : Fmts, d.any (fun kv => kv.1 = k) = true →
      (d.map (fun kv => if kv.1 = k then (k, v) else kv)).find?
        (fun kv => kv.1 = k) = some (k, v) := by
  intro d
  induction d with
  | nil => intro h; simp at h
  | cons kv rest ih =>
    intro h
    by_cases hk : kv.1 = k
    · simp [hk]
    · simp only [List.map_cons, if_neg hk]
      rw [List.find?_cons_of_neg]
      · apply ih
        simpa [hk] using h
      · simp [hk]

theorem find?_map_update_ne (k a : Str) (v : Bool × Bool) (hne : a ≠ k) :
    ∀ d : Fmts,
      (d.map (fun kv => if kv.1 = k then (k, v) else kv)).find?
        (fun kv => kv.1 = a) = d.find? (fun kv => kv.1 = a) := by
  intro d
  induction d with
  | nil => rfl
  | cons kv rest ih =>
    by_cases hk : kv.1 = k
    · have hka : ¬kv.1 = a := by rw [hk]; exact fun h => hne h.symm
      simp only [List.map_cons, if_pos hk]
      rw [List.find?_cons_of_neg, List.find?_cons_of_neg, ih]
      · simpa using hka
      · simp
        exact fun h => hne h.symm
    · simp only [List.map_cons, if_neg hk]
      by_cases ha : kv.1 = a
      · rw [List.find?_cons_of_pos, List.find?_cons_of_pos] <;> simpa using ha
      · rw [List.find?_cons_of_neg, List.find?_cons_of_neg, ih] <;> simpa using ha

theorem find?_append_new (k a : Str) (v : Bool × Bool) :
    ∀ d : Fmts, d.any (fun kv => kv.1 = k) = false →
      (d ++ [(k, v)]).find? (fun kv => kv.1 = a) =
        if a = k then some (k, v) else d.find? (fun kv => kv.1 = a) := by
  intro d
  induction d with
  | nil =>
    intro _
    by_cases ha : a = k
    · simp [ha]
    · rw [List.nil_append, List.find?_cons_of_neg, if_neg ha]
      simp
      exact fun h => ha h.symm
  | cons kv rest ih =>
    intro h
    have hk : ¬kv.1 = k := by
      intro hkk
      simp [List.any_cons, hkk] at h
    have hrest : rest.any (fun kv => kv.1 = k) = false := by
      simpa [List.any_cons, hk] using h
    by_cases ha : kv.1 = a
    · have hak : ¬a = k := by
        intro hk2
        exact hk (by rw [ha, hk2])
      rw [List.cons_append, List.find?_cons_of_pos, List.find?_cons_of_pos,
        if_neg hak] <;> simpa using ha
    · rw [List.cons_append, List.find?_cons_of_neg, List.find?_cons_of_neg,
        ih hrest] <;> simpa using ha

/-- Pointwise description of a Python dictionary assignment. -/
theorem dictLookup_dictInsert (d : Fmts) (k a : Str) (v : Bool × Bool) :
    dictLookup (dictInsert d k v) a =
      if a = k then some v else dictLookup d a := by
  unfold dictInsert dictLookup
  by_cases hany : d.any (fun kv => kv.1 = k) = true
  · rw [if_pos hany]
    by_cases ha : a = k
    · subst ha
      rw [find?_map_update_self a v d hany, if_pos rfl]
      rfl
    · rw [find?_map_update_ne k a v ha d, if_neg ha]
  · rw [if_neg hany, find?_append_new k a v d
      (by rwa [Bool.not_eq_true] at hany)]
    by_cases ha : a = k
    · rw [if_pos ha, if_pos ha]
      rfl
    · rw [if_neg ha, if_neg ha]

/-! ### C1: validation order -/

/-- C1: for every capability map and formats, `_validate_audio_formats`
checks in order: input format present, input decodable, output format
present, output encodable; the first failing check determines the raised
error (FormatUnsupported / AudioDemuxingError / FormatUnsupported /
AudioMuxingError), and no error is raised when the input format is
decodable and the output format encodable.  The first conjunct holds for
every output format, so an absent input format yields FormatUnsupported
regardless of the output format's status. -/
theorem validate_audio_formats_order (m : Fmts) (inF inP outF outP : Str) :
    (dictLookup m inF = none →
      validate_audio_formats m inF inP outF outP =
        some (.formatUnsupported inF inP)) ∧
    (∀ mx, dictLookup m inF = some (false, mx) →
      validate_audio_formats m inF inP outF outP =
        some (.demuxing inF inP)) ∧
    (∀ mx, dictLookup m inF = some (true, mx) → dictLookup m outF = none →
      validate_audio_formats m inF inP outF outP =
        some (.formatUnsupported outF outP)) ∧
    (∀ mx dm, dictLookup m inF = some (true, mx) →
      dictLookup m outF = some (dm, false) →
      validate_audio_formats m inF inP outF outP =
        some (.muxing outF outP)) ∧
    (∀ mx dm, dictLookup m inF = some (true, mx) →
      dictLookup m outF = some (dm, true) →
      validate_audio_formats m inF inP outF outP = none) := by
  refine ⟨?_, ?_, ?_, ?_, ?_⟩
  · intro h
    simp [validate_audio_formats, h]
  · intro mx h
    simp [validate_audio_formats, h]
  · intro mx h1 h2
    simp [validate_audio_formats, h1, h2]
  · intro mx dm h1 h2
    simp [validate_audio_formats, h1, h2]
  · intro mx dm h1 h2
    simp [validate_audio_formats, h1, h2]

/-- Concrete capability map used by the witnesses. -/
def fmtsEx : Fmts :=
  [("wav".data, (true, true)), ("ogg".data, (true, false)),
   ("au".data, (false, true))]

/-- Witness for C1 at a concrete map: an absent input format raises
FormatUnsupported even though the output format is fine, and a fully
supported pair raises nothing. -/
theorem validate_audio_formats_order_witness :
    validate_audio_formats fmtsEx "mp3".data "p1".data "wav".data "p2".data =
      some (.formatUnsupported "mp3".data "p1".data) ∧
    validate_audio_formats fmtsEx "ogg".data "p1".data "wav".data "p2".data =
      none :=
  ⟨(validate_audio_formats_order fmtsEx "mp3".data "p1".data "wav".data
      "p2".data).1 (by decide),
   (validate_audio_formats_order fmtsEx "ogg".data "p1".data "wav".data
      "p2".data).2.2.2.2 false true (by decide) (by decide)⟩

/-! ### C2: the spec's example listing line -/

/-- C2 counterexample: the spec's example line `D E  wav,wave  WAV format`
separates the two flag characters by a space, so it does not match the
regex `^\s*([D\s])([E\s])\s+(\S+)\s+.*$` (after group 2 consumes the
space, `\s+` finds `E`, a non-whitespace character), hence parsing a
listing made of that line yields an empty map — in particular no
`"wav"` entry at all. -/
theorem build_spec_line_counterexample :
    build_audio_formats_dict ["D E  wav,wave  WAV format".data] = [] ∧
    dictLookup (build_audio_formats_dict ["D E  wav,wave  WAV format".data])
      "wav".data ≠ some (true, true) := by
  decide

/-- C2 amended: with the flag characters adjacent, as `ffmpeg -formats`
actually prints them, the line `DE  wav,wave  WAV format` produces exactly
the entries `{"wav": [true, true], "wave": [true, true]}`. -/
theorem build_adjacent_flags_line :
    build_audio_formats_dict ["DE  wav,wave  WAV format".data] =
      [("wav".data, (true, true)), ("wave".data, (true, true))] := by
  decide

/-! ### C9: load error conditions -/

/-- C9: `_load_audio_formats_dict` (the wrapped function) raises
`FileNotFoundError` exactly when the file is absent, raises a JSON decode
error exactly when the file exists but does not parse, and returns the
deserialized map when the file exists and parses. -/
theorem load_audio_formats_dict_errors (files : TextFS)
    (parseJson : Str → Option Fmts) (p : PyPath) :
    (load_audio_formats_dict files parseJson p = .error (.fileNotFound p) ↔
      files p = none) ∧
    (load_audio_formats_dict files parseJson p = .error .jsonDecodeError ↔
      ∃ c, files p = some c ∧ parseJson c = none) ∧
    (∀ c d, files p = some c → parseJson c = some d →
      load_audio_formats_dict files parseJson p = .ok d) := by
  refine ⟨?_, ?_, ?_⟩
  · cases hf : files p with
    | none => simp [load_audio_formats_dict, hf]
    | some c =>
      cases hp : parseJson c with
      | none => simp [load_audio_formats_dict, hf, hp]
      | some d => simp [load_audio_formats_dict, hf, hp]
  · cases hf : files p with
    | none => simp [load_audio_formats_dict, hf]
    | some c =>
      cases hp : parseJson c with
      | none => simp [load_audio_formats_dict, hf, hp]
      | some d => simp [load_audio_formats_dict, hf, hp]
  · intro c d hf hp
    simp [load_audio_formats_dict, hf, hp]

/-- Concrete registry path used by the witnesses. -/
def pathA : PyPath := ⟨".".data, "audio_formats.json".data⟩

/-- Second concrete registry path, used to exercise the cache keying. -/
def pathB : PyPath := ⟨".".data, "other_formats.json".data⟩

/-- Concrete text filesystem: `pathA` holds `"A"`, `pathB` holds `"B"`. -/
def filesEx : TextFS := fun q =>
  if q = pathA then some "A".data
  else if q = pathB then some "B".data
  else none

/-- Concrete JSON parser: `"A"` and `"B"` parse to distinct maps,
everything else is corrupt. -/
def parseEx : Str → Option Fmts := fun s =>
  if s = "A".data then some [("wav".data, (true, true))]
  else if s = "B".data then some [("mp3".data, (true, false))]
  else none

/-- Witness for C9 at a concrete filesystem: a missing path raises
`FileNotFoundError`, and the present, well-formed registry file loads. -/
theorem load_audio_formats_dict_errors_witness :
    load_audio_formats_dict filesEx parseEx ⟨".".data, "no.json".data⟩ =
      .error (.fileNotFound ⟨".".data, "no.json".data⟩) ∧
    load_audio_formats_dict filesEx parseEx pathA =
      .ok [("wav".data, (true, true))] :=
  ⟨(load_audio_formats_dict_errors filesEx parseEx
      ⟨".".data, "no.json".data⟩).1.mpr (by decide),
   (load_audio_formats_dict_errors filesEx parseEx pathA).2.2
      "A".data [("wav".data, (true, true))] (by decide) (by decide)⟩

/-! ### C3: alias insertion and last-write-wins -/

theorem dictLookup_foldl_insert_not_mem (v : Bool × Bool) (a : Str) :
    ∀ (ns : List Str) (d : Fmts), a ∉ ns.map pyStrip →
      dictLookup
        (ns.foldl (fun acc n => dictInsert acc (pyStrip n) v) d) a =
        dictLookup d a := by
  intro ns
  induction ns with
  | nil => intro d _; rfl
  | cons n rest ih =>
    intro d h
    rw [List.map_cons] at h
    have hn : a ≠ pyStrip n := fun hh => h (hh ▸ List.mem_cons_self _ _)
    have hrest : a ∉ rest.map pyStrip := fun hh => h (List.mem_cons_of_mem _ hh)
    rw [List.foldl_cons, ih _ hrest, dictLookup_dictInsert, if_neg hn]

theorem dictLookup_foldl_insert_mem (v : Bool × Bool) (a : Str) :
    ∀ (ns : List Str) (d : Fmts), a ∈ ns.map pyStrip →
      dictLookup
        (ns.foldl (fun acc n => dictInsert acc (pyStrip n) v) d) a =
        some v := by
  intro ns
  induction ns with
  | nil => intro d h; simp at h
  | cons n rest ih =>
    intro d h
    rw [List.foldl_cons]
    by_cases hrest : a ∈ rest.map pyStrip
    · exact ih _ hrest
    · have hn : a = pyStrip n := by
        rcases (by simpa using h :
            a = pyStrip n ∨ ∃ b ∈ rest, pyStrip b = a) with h1 | ⟨b, hb, hbe⟩
        · exact h1
        · exact absurd (hbe ▸ List.mem_map_of_mem pyStrip hb) hrest
      rw [dictLookup_foldl_insert_not_mem v a rest _ hrest,
        dictLookup_dictInsert, if_pos hn]

theorem processLine_lookup_of_match (d : Fmts) (l : Str) (c1 c2 : Char)
    (g3 : Str) (a : Str) (hm : reMatchLine l = some (c1, c2, g3))
    (ha : a ∈ (splitOnComma g3).map pyStrip) :
    dictLookup (processLine d l) a =
      some (decide (c1 = 'D'), decide (c2 = 'E')) := by
  unfold processLine
  rw [hm]
  exact dictLookup_foldl_insert_mem _ a (splitOnComma g3) d ha

theorem processLine_lookup_preserved (d : Fmts) (l : Str) (a : Str)
    (h : ∀ c1 c2 g3, reMatchLine l = some (c1, c2, g3) →
      a ∉ (splitOnComma g3).map pyStrip) :
    dictLookup (processLine d l) a = dictLookup d a := by
  unfold processLine
  cases hm : reMatchLine l with
  | none => rfl
  | some r =>
    exact dictLookup_foldl_insert_not_mem _ a (splitOnComma r.2.2) d
      (h r.1 r.2.1 r.2.2 (by rw [hm]))

theorem foldl_processLine_lookup_preserved (a : Str) :
    ∀ (ls : List Str) (d : Fmts),
      (∀ l ∈ ls, ∀ c1 c2 g3, reMatchLine l = some (c1, c2, g3) →
        a ∉ (splitOnComma g3).map pyStrip) →
      dictLookup (ls.foldl processLine d) a = dictLookup d a := by
  intro ls
  induction ls with
  | nil => intro d _; rfl
  | cons l rest ih =>
    intro d h
    rw [List.foldl_cons,
      ih _ (fun l' hl' => h l' (List.mem_cons_of_mem _ hl')),
      processLine_lookup_preserved d l a (h l (List.mem_cons_self _ _))]

/-- C3: in `_build_audio_formats_dict`, every alias of a matching line is
mapped to the `(demuxable, muxable)` pair taken from that line's two flag
characters, and this holds whatever entries earlier lines created for the
same alias (the later assignment silently overwrites them) — provided no
later matching line mentions the alias again, which is the last-write-wins
rule. -/
theorem build_alias_last_write_wins (pre post : List Str) (line : Str)
    (c1 c2 : Char) (g3 : Str) (a : Str)
    (hmatch : reMatchLine line = some (c1, c2, g3))
    (ha : a ∈ (splitOnComma g3).map pyStrip)
    (hpost : ∀ l ∈ post, ∀ d1 d2 h3, reMatchLine l = some (d1, d2, h3) →
      a ∉ (splitOnComma h3).map pyStrip) :
    dictLookup (build_audio_formats_dict (pre ++ line :: post)) a =
      some (decide (c1 = 'D'), decide (c2 = 'E')) := by
  unfold build_audio_formats_dict
  rw [List.foldl_append, List.foldl_cons,
    foldl_processLine_lookup_preserved a post _ hpost,
    processLine_lookup_of_match _ line c1 c2 g3 a hmatch ha]

/-- Witness for C3: the alias `wav` appears in two matching lines; the
later line (demuxable only, not muxable) wins over the earlier one
(demuxable and muxable). -/
theorem build_alias_last_write_wins_witness :
    dictLookup
      (build_audio_formats_dict
        [" DE  wav  WAV format".data, " D   wav,ogg  other".data])
      "wav".data = some (true, false) :=
  build_alias_last_write_wins [" DE  wav  WAV format".data] []
    " D   wav,ogg  other".data 'D' ' ' "wav,ogg".data "wav".data
    (by decide) (by decide) (by simp)

/-! ### C4: the memoized load is keyed on the path argument -/

/-- The capability map stored at `pathA` in the concrete filesystem. -/
def mapA : Fmts := [("wav".data, (true, true))]

/-- The capability map stored at `pathB` in the concrete filesystem. -/
def mapB : Fmts := [("mp3".data, (true, false))]

/-- C4 counterexample: after a first successful load from `pathA`, a call
with the different path `pathB` is an `lru_cache` miss — the cache is
keyed on the path argument — so the file at `pathB` is read and its map,
different from the memoized one, is returned; the claim that the later
path is ignored and the first map returned is false. -/
theorem cached_load_path_change_counterexample :
    (cached_load_audio_formats_dict filesEx parseEx none pathA).result =
      .ok mapA ∧
    (cached_load_audio_formats_dict filesEx parseEx none pathA).cacheAfter =
      some (pathA, mapA) ∧
    (cached_load_audio_formats_dict filesEx parseEx
      (some (pathA, mapA)) pathB).result = .ok mapB ∧
    mapB ≠ mapA ∧
    (cached_load_audio_formats_dict filesEx parseEx
      (some (pathA, mapA)) pathB).readPaths = [pathB] := by
  refine ⟨rfl, rfl, rfl, by decide, rfl⟩

/-- C4 amended: a later call with the same path as the cached entry
returns the memoized map and reads no file (whatever the filesystem now
contains); a call with a different path is a cache miss: it reads the
file at the new path and, on success, returns the freshly loaded map and
replaces the cached entry with it. -/
theorem cached_load_memoization (files : TextFS)
    (parseJson : Str → Option Fmts) (p : PyPath) (m : Fmts) :
    (cached_load_audio_formats_dict files parseJson (some (p, m)) p =
      ⟨.ok m, some (p, m), []⟩) ∧
    (∀ p2, p2 ≠ p →
      (cached_load_audio_formats_dict files parseJson
        (some (p, m)) p2).readPaths = [p2] ∧
      (∀ m2, load_audio_formats_dict files parseJson p2 = .ok m2 →
        cached_load_audio_formats_dict files parseJson (some (p, m)) p2 =
          ⟨.ok m2, some (p2, m2), [p2]⟩)) := by
  constructor
  · simp [cached_load_audio_formats_dict]
  · intro p2 hne
    have hne2 : ¬p = p2 := fun h => hne h.symm
    constructor
    · simp only [cached_load_audio_formats_dict]
      rw [if_neg hne2]
      cases load_audio_formats_dict files parseJson p2 <;> rfl
    · intro m2 h2
      simp only [cached_load_audio_formats_dict]
      rw [if_neg hne2, h2]

/-- Witness for C4's amended statement: with the concrete filesystem, a
repeat call with `pathA` is served from the cache without reading, and a
call with `pathB` re-reads and re-caches. -/
theorem cached_load_memoization_witness :
    cached_load_audio_formats_dict filesEx parseEx (some (pathA, mapA))
      pathA = ⟨.ok mapA, some (pathA, mapA), []⟩ ∧
    cached_load_audio_formats_dict filesEx parseEx (some (pathA, mapA))
      pathB = ⟨.ok mapB, some (pathB, mapB), [pathB]⟩ :=
  ⟨(cached_load_memoization filesEx parseEx pathA mapA).1,
   ((cached_load_memoization filesEx parseEx pathA mapA).2 pathB
      (by decide)).2 mapB rfl⟩

/-! ### Path lemmas -/

theorem dropWhile_append_of_forall {p : Char → Bool} :
    ∀ l r : Str, (∀ c ∈ l, p c = true) →
      (l ++ r).dropWhile p = r.dropWhile p := by
  intro l
  induction l with
  | nil => intro r _; rfl
  | cons a l ih =>
    intro r h
    rw [List.cons_append,
      List.dropWhile_cons_of_pos (h a (List.mem_cons_self _ _)),
      ih r (fun c hc => h c (List.mem_cons_of_mem _ hc))]

theorem takeWhile_append_of_forall {p : Char → Bool} :
    ∀ l r : Str, (∀ c ∈ l, p c = true) →
      (l ++ r).takeWhile p = l ++ r.takeWhile p := by
  intro l
  induction l with
  | nil => intro r _; rfl
  | cons a l ih =>
    intro r h
    rw [List.cons_append,
      List.takeWhile_cons_of_pos (h a (List.mem_cons_self _ _)),
      ih r (fun c hc => h c (List.mem_cons_of_mem _ hc)), List.cons_append]

theorem dropWhile_head_false {p : Char → Bool} :
    ∀ (l : Str) c rest, l.dropWhile p = c :: rest → p c = false := by
  intro l
  induction l with
  | nil => intro c rest h; simp at h
  | cons a l ih =>
    intro c rest h
    by_cases ha : p a = true
    · rw [List.dropWhile_cons_of_pos ha] at h
      exact ih c rest h
    · rw [List.dropWhile_cons_of_neg ha] at h
      injection h with h1 _
      subst h1
      rwa [Bool.not_eq_true] at ha

/-- `splitName` on a name of the shape `stem.ext` (non-empty stem,
non-empty dot-free extension) recovers exactly that split. -/
theorem splitName_append_ext (s w : Str) (hs : s ≠ []) (hw : w ≠ [])
    (hdot : ∀ c ∈ w, c ≠ '.') :
    splitName (s ++ '.' :: w) = (s, '.' :: w) := by
  have hall : ∀ c ∈ w.reverse, (fun c => decide (c ≠ '.')) c = true := by
    intro c hc
    simpa using hdot c (List.mem_reverse.mp hc)
  have hrev : (s ++ '.' :: w).reverse = w.reverse ++ '.' :: s.reverse := by
    simp
  have hdrop : ((s ++ '.' :: w).reverse).dropWhile (fun c => c ≠ '.') =
      '.' :: s.reverse := by
    rw [hrev, dropWhile_append_of_forall _ _ hall,
      List.dropWhile_cons_of_neg (by simp)]
  have htake : ((s ++ '.' :: w).reverse).takeWhile (fun c => c ≠ '.') =
      w.reverse := by
    rw [hrev, takeWhile_append_of_forall _ _ hall,
      List.takeWhile_cons_of_neg (by simp), List.append_nil]
  simp only [splitName, hdrop, htake]
  rw [if_neg (by simpa using hs), if_neg (by simpa using hw)]
  simp

/-- A file name is its stem followed by its suffix. -/
theorem name_eq_stem_append_suffix (p : PyPath) :
    p.name = p.stem ++ p.suffix := by
  unfold PyPath.stem PyPath.suffix splitName
  cases hd : p.name.reverse.dropWhile (fun c => c ≠ '.') with
  | nil =>
    simp only [hd]
    rw [List.append_nil]
  | cons c rest =>
    simp only [hd]
    by_cases h1 : rest = []
    · rw [if_pos h1, List.append_nil]
    · rw [if_neg h1]
      by_cases h2 : p.name.reverse.takeWhile (fun c => c ≠ '.') = []
      · rw [if_pos h2, List.append_nil]
      · rw [if_neg h2]
        have hc : c = '.' := by
          have h3 := dropWhile_head_false _ c rest hd
          simpa using h3
        have hsplit : p.name.reverse =
            p.name.reverse.takeWhile (fun c => c ≠ '.') ++ c :: rest := by
          rw [← hd, List.takeWhile_append_dropWhile]
        have h4 : p.name = rest.reverse ++ c ::
            (p.name.reverse.takeWhile (fun c => c ≠ '.')).reverse := by
          conv_lhs => rw [← List.reverse_reverse p.name, hsplit]
          rw [List.reverse_append, List.reverse_cons, List.append_assoc,
            List.singleton_append]
        rw [hc] at h4
        exact h4

/-- A suffix is empty or starts with a dot. -/
theorem suffix_shape (p : PyPath) :
    p.suffix = [] ∨ ∃ t, p.suffix = '.' :: t := by
  unfold PyPath.suffix splitName
  cases hd : p.name.reverse.dropWhile (fun c => c ≠ '.') with
  | nil => left; simp only [hd]
  | cons c rest =>
    simp only [hd]
    by_cases h1 : rest = []
    · left; rw [if_pos h1]
    · rw [if_neg h1]
      by_cases h2 : p.name.reverse.takeWhile (fun c => c ≠ '.') = []
      · left; rw [if_pos h2]
      · right
        rw [if_neg h2]
        exact ⟨_, rfl⟩

/-- A non-empty name has a non-empty stem. -/
theorem stem_ne_nil (p : PyPath) (h : p.name ≠ []) : p.stem ≠ [] := by
  unfold PyPath.stem splitName
  cases hd : p.name.reverse.dropWhile (fun c => c ≠ '.') with
  | nil => simp only [hd]; exact h
  | cons c rest =>
    simp only [hd]
    by_cases h1 : rest = []
    · rw [if_pos h1]; exact h
    · rw [if_neg h1]
      by_cases h2 : p.name.reverse.takeWhile (fun c => c ≠ '.') = []
      · rw [if_pos h2]; exact h
      · rw [if_neg h2]
        simpa using h1

theorem suffix_withSuffix_wav (p : PyPath) (h : p.stem ≠ []) :
    (p.withSuffix ".wav".data).suffix = ".wav".data := by
  show (splitName (p.stem ++ ".wav".data)).2 = ".wav".data
  rw [show (".wav".data : Str) = '.' :: "wav".data from rfl,
    splitName_append_ext p.stem "wav".data h (by decide) (by decide)]

theorem stem_withSuffix_wav (p : PyPath) (h : p.stem ≠ []) :
    (p.withSuffix ".wav".data).stem = p.stem := by
  show (splitName (p.stem ++ ".wav".data)).1 = p.stem
  rw [show (".wav".data : Str) = '.' :: "wav".data from rfl,
    splitName_append_ext p.stem "wav".data h (by decide) (by decide)]

theorem pyLower_wav : pyLower ".wav".data = ".wav".data := by decide

/-- A non-canonical path differs from its `.wav` sibling. -/
theorem withSuffix_wav_ne (p : PyPath)
    (hsuf : pyLower p.suffix ≠ ".wav".data) :
    p.withSuffix ".wav".data ≠ p := by
  intro he
  have hname : p.stem ++ ".wav".data = p.name := congrArg PyPath.name he
  rw [name_eq_stem_append_suffix p] at hname
  have : (".wav".data : Str) = p.suffix := List.append_cancel_left hname
  exact hsuf (by rw [← this, pyLower_wav])

/-! ### C5: conversion is a no-op on an already-canonical file -/

/-- C5: when the input path's suffix lowercases to `.wav`,
`convert_to_wav` returns the input path unchanged and leaves the
filesystem untouched (no deletion), whatever `keep_input_file` is; a
second call (with any flag) again returns the same path and deletes
nothing. -/
theorem convert_canonical_noop (fs : FSet) (p : PyPath) (k1 k2 : Bool)
    (h : pyLower p.suffix = ".wav".data) :
    convert_to_wav fs p k1 = .ok (p, fs) ∧
    convert_to_wav fs p k2 = .ok (p, fs) := by
  constructor
  · unfold convert_to_wav
    rw [if_pos h]
  · unfold convert_to_wav
    rw [if_pos h]

/-- Witness for C5 at an upper-case `.WAV` file on a one-file disk. -/
theorem convert_canonical_noop_witness :
    convert_to_wav
      (fun q => decide (q = ⟨"d".data, "song.WAV".data⟩))
      ⟨"d".data, "song.WAV".data⟩ false =
    .ok (⟨"d".data, "song.WAV".data⟩,
      fun q => decide (q = ⟨"d".data, "song.WAV".data⟩)) :=
  (convert_canonical_noop
    (fun q => decide (q = ⟨"d".data, "song.WAV".data⟩))
    ⟨"d".data, "song.WAV".data⟩ false true (by decide)).1

/-! ### C6: conversion of a non-canonical file -/

/-- What one non-canonical conversion does to the filesystem, for any
starting filesystem that contains the input file. -/
theorem convert_noncanonical_eq (fs : FSet) (p : PyPath) (k : Bool)
    (hsuf : pyLower p.suffix ≠ ".wav".data) (hname : p.name ≠ [])
    (hfs : fs p = true) :
    convert_to_wav fs p k =
      .ok (p.withSuffix ".wav".data,
        if k then setFile fs (p.withSuffix ".wav".data) true
        else setFile (setFile fs (p.withSuffix ".wav".data) true) p
          false) := by
  have hne : p ≠ p.withSuffix ".wav".data :=
    fun he => withSuffix_wav_ne p hsuf he.symm
  unfold convert_to_wav
  rw [if_neg hsuf, if_neg hname]
  have h1 : setFile fs (p.withSuffix ".wav".data) true p = true := by
    unfold setFile
    rw [if_neg hne]
    exact hfs
  cases k
  · simp [hfs, h1]
  · simp [hfs]

/-- C6: converting a non-canonical file writes the output at the sibling
path with the same stem and the `.wav` extension; starting from a disk
holding exactly the input file, `keep_input_file = false` leaves exactly
the converted file, and `keep_input_file = true` leaves exactly the two
distinct files (the original untouched plus the converted one). -/
theorem convert_noncanonical_files (p : PyPath)
    (hsuf : pyLower p.suffix ≠ ".wav".data) (hname : p.name ≠ []) :
    p.withSuffix ".wav".data ≠ p ∧
    (p.withSuffix ".wav".data).parent = p.parent ∧
    (p.withSuffix ".wav".data).stem = p.stem ∧
    (p.withSuffix ".wav".data).suffix = ".wav".data ∧
    (∃ fs1, convert_to_wav (fun q => decide (q = p)) p false =
        .ok (p.withSuffix ".wav".data, fs1) ∧
      ∀ q, fs1 q = true ↔ q = p.withSuffix ".wav".data) ∧
    (∃ fs2, convert_to_wav (fun q => decide (q = p)) p true =
        .ok (p.withSuffix ".wav".data, fs2) ∧
      ∀ q, fs2 q = true ↔ (q = p ∨ q = p.withSuffix ".wav".data)) := by
  have hstem := stem_ne_nil p hname
  have hne := withSuffix_wav_ne p hsuf
  have hfs : (fun q => decide (q = p)) p = true := by simp
  refine ⟨hne, rfl, stem_withSuffix_wav p hstem,
    suffix_withSuffix_wav p hstem,
    ⟨setFile (setFile (fun q => decide (q = p))
        (p.withSuffix ".wav".data) true) p false,
      convert_noncanonical_eq _ p false hsuf hname hfs, ?_⟩,
    ⟨setFile (fun q => decide (q = p)) (p.withSuffix ".wav".data) true,
      convert_noncanonical_eq _ p true hsuf hname hfs, ?_⟩⟩
  · intro q
    have hne2 : ¬p = p.withSuffix ".wav".data := fun h2 => hne h2.symm
    by_cases hq : q = p
    · subst hq
      simp [setFile, hne2]
    · by_cases ho : q = p.withSuffix ".wav".data
      · simp [setFile, ho, hq, hne, hne2]
      · simp [setFile, ho, hq]
  · intro q
    have hne2 : ¬p = p.withSuffix ".wav".data := fun h2 => hne h2.symm
    by_cases hq : q = p
    · subst hq
      simp [setFile, hne2]
    · by_cases ho : q = p.withSuffix ".wav".data
      · simp [setFile, ho, hq, hne, hne2]
      · simp [setFile, ho, hq]

/-- Witness for C6 at a concrete `.mp3` file. -/
theorem convert_noncanonical_files_witness :
    ∃ fs1, convert_to_wav
        (fun q => decide (q = (⟨"d".data, "song.mp3".data⟩ : PyPath)))
        ⟨"d".data, "song.mp3".data⟩ false =
      .ok ((⟨"d".data, "song.mp3".data⟩ : PyPath).withSuffix ".wav".data,
        fs1) ∧
      ∀ q, fs1 q = true ↔
        q = (⟨"d".data, "song.mp3".data⟩ : PyPath).withSuffix ".wav".data :=
  (convert_noncanonical_files ⟨"d".data, "song.mp3".data⟩ (by decide)
    (by decide)).2.2.2.2.1

/-! ### C10: the returned extension always lowercases to `.wav` -/

/-- C10: whenever `convert_to_wav` returns a path, that path's suffix
lowercases to `.wav`; and an input whose suffix is the upper-case
`.WAV` is returned unchanged, with nothing on disk touched — the file is
not renamed to the lowercase canonical extension. -/
theorem convert_result_extension (fs : FSet) (p : PyPath) (k : Bool)
    (q : PyPath) (fs2 : FSet)
    (h : convert_to_wav fs p k = .ok (q, fs2)) :
    pyLower q.suffix = ".wav".data ∧
    (p.suffix = ".WAV".data → q = p ∧ fs2 = fs) := by
  unfold convert_to_wav at h
  by_cases hc : pyLower p.suffix = ".wav".data
  · rw [if_pos hc] at h
    injection h with h1
    injection h1 with h2 h3
    subst h2
    subst h3
    exact ⟨hc, fun _ => ⟨rfl, rfl⟩⟩
  · rw [if_neg hc] at h
    by_cases hn : p.name = []
    · rw [if_pos hn] at h
      cases h
    · rw [if_neg hn] at h
      have hq : q = p.withSuffix ".wav".data := by
        split at h
        · cases h
        · split at h
          · injection h with h1
            injection h1 with h2 _
            exact h2.symm
          · split at h
            · injection h with h1
              injection h1 with h2 _
              exact h2.symm
            · cases h
      constructor
      · rw [hq, suffix_withSuffix_wav p (stem_ne_nil p hn), pyLower_wav]
      · intro hWAV
        exact absurd (by rw [hWAV]; decide) hc

/-- Witness for C10: a `.WAV` input on a full disk comes back unchanged
and already satisfies the lowercased-extension condition. -/
theorem convert_result_extension_witness :
    pyLower ((⟨"d".data, "a.WAV".data⟩ : PyPath)).suffix = ".wav".data ∧
    ((⟨"d".data, "a.WAV".data⟩ : PyPath).suffix = ".WAV".data →
      (⟨"d".data, "a.WAV".data⟩ : PyPath) = ⟨"d".data, "a.WAV".data⟩ ∧
      (fun _ => true : FSet) = fun _ => true) :=
  convert_result_extension (fun _ => true) ⟨"d".data, "a.WAV".data⟩ true
    ⟨"d".data, "a.WAV".data⟩ (fun _ => true) rfl

/-! ### C8: saving an isolated stem -/

/-- C8: `_save_isolated_track` returns a path in the same directory as the
base path, named exactly `{base-stem}_{track-name}.wav`; the waveform is
written there; the returned path always differs from the base path (a real
suffix is empty or starts with a dot, never with an underscore), and the
file at the base path — like every other file — is left untouched. -/
theorem save_isolated_track_spec (fs : AudioFS) (w : Waveform) (tn : Str)
    (sr : Nat) (base : PyPath) :
    (save_isolated_track fs w tn sr base).1.parent = base.parent ∧
    (save_isolated_track fs w tn sr base).1.name =
      base.stem ++ '_' :: tn ++ ".wav".data ∧
    (save_isolated_track fs w tn sr base).1 ≠ base ∧
    (save_isolated_track fs w tn sr base).2
      (save_isolated_track fs w tn sr base).1 = some (w, sr) ∧
    (save_isolated_track fs w tn sr base).2 base = fs base ∧
    ∀ q, q ≠ (save_isolated_track fs w tn sr base).1 →
      (save_isolated_track fs w tn sr base).2 q = fs q := by
  have ht : save_isolated_track fs w tn sr base =
      (⟨base.parent, base.stem ++ '_' :: tn ++ ".wav".data⟩,
        fun q =>
          if q = ⟨base.parent, base.stem ++ '_' :: tn ++ ".wav".data⟩
          then some (w, sr) else fs q) := rfl
  have hne :
      (⟨base.parent, base.stem ++ '_' :: tn ++ ".wav".data⟩ : PyPath) ≠
        base := by
    intro he
    have h1 : base.stem ++ '_' :: tn ++ ".wav".data = base.name :=
      congrArg PyPath.name he
    rw [name_eq_stem_append_suffix base] at h1
    have h2 : '_' :: (tn ++ ".wav".data) = base.suffix := by
      rw [List.append_assoc] at h1
      have h2a := List.append_cancel_left h1
      rwa [List.cons_append] at h2a
    rcases suffix_shape base with h3 | ⟨t, h3⟩
    · rw [h3] at h2
      cases h2
    · rw [h3] at h2
      injection h2 with h4 _
      exact absurd h4 (by decide)
  rw [ht]
  refine ⟨rfl, rfl, hne, ?_, ?_, ?_⟩
  · dsimp only
    rw [if_pos rfl]
  · dsimp only
    rw [if_neg (fun h2 => hne h2.symm)]
  · intro q hq
    dsimp only at hq ⊢
    rw [if_neg hq]

/-- Witness for C8 at a concrete base file. -/
theorem save_isolated_track_spec_witness :
    (save_isolated_track (fun _ => none) 5 "guitar".data 44100
      ⟨"d".data, "song.wav".data⟩).1 ≠ ⟨"d".data, "song.wav".data⟩ ∧
    (save_isolated_track (fun _ => none) 5 "guitar".data 44100
      ⟨"d".data, "song.wav".data⟩).2 ⟨"d".data, "other.wav".data⟩ = none :=
  ⟨(save_isolated_track_spec (fun _ => none) 5 "guitar".data 44100
      ⟨"d".data, "song.wav".data⟩).2.2.1,
   (save_isolated_track_spec (fun _ => none) 5 "guitar".data 44100
      ⟨"d".data, "song.wav".data⟩).2.2.2.2.2
      ⟨"d".data, "other.wav".data⟩ (by decide)⟩

/-! ### C7: stem selection and StemNotFound -/

theorem pyListIndex_not_mem (xs : List Str) (x : Str) (h : x ∉ xs) :
    pyListIndex xs x = .error (.stemNotFound x) := by
  induction xs with
  | nil => rfl
  | cons y ys ih =>
    rw [List.mem_cons, not_or] at h
    unfold pyListIndex
    rw [if_neg (fun he => h.1 he.symm), ih h.2]

/-- Modelled from the spec: the six source classes `[drums, bass, other,
vocals, guitar, piano]` declared by the pretrained `htdemucs_6s` model
(§4.3 and §8 of the spec; the model itself is an external library
object); the per-source outputs are arbitrary distinct waveforms. -/
def htdemucs6s : HTDemucs :=
  ⟨["drums".data, "bass".data, "other".data, "vocals".data, "guitar".data,
    "piano".data],
   fun w => [w + 1, w + 2, w + 3, w + 4, w + 5, w + 6]⟩

/-- Concrete audio file used by the isolation example. -/
def songPathEx : PyPath := ⟨"d".data, "song.wav".data⟩

/-- Concrete audio filesystem holding only `song.wav`. -/
def songFSEx : AudioFS := fun q =>
  if q = songPathEx then some (7, 44100) else none

/-- C7: requesting a stem that the model does not declare fails with the
StemNotFound error (Python's `ValueError` from `list.index`), for every
model, stem name and waveform; with the six-source model, requesting
`banjo` fails that way, while `isolate_guitar` on `song.wav` succeeds and
writes the guitar stem to `song_guitar.wav`. -/
theorem isolate_stem_not_found :
    (∀ (model : HTDemucs) (stemName : Str) (w : Waveform),
        stemName ∉ model.sources →
        isolate_stem_waveform model stemName w =
          .error (.stemNotFound stemName)) ∧
    (∀ w, isolate_stem_waveform htdemucs6s "banjo".data w =
      .error (.stemNotFound "banjo".data)) ∧
    (∃ fsOut, isolate_guitar htdemucs6s songFSEx songPathEx =
        .ok (⟨"d".data, "song_guitar.wav".data⟩, fsOut) ∧
      fsOut ⟨"d".data, "song_guitar.wav".data⟩ = some (12, 44100)) := by
  have h1 : ∀ (model : HTDemucs) (stemName : Str) (w : Waveform),
      stemName ∉ model.sources →
      isolate_stem_waveform model stemName w =
        .error (.stemNotFound stemName) := by
    intro model stemName w h
    unfold isolate_stem_waveform
    rw [pyListIndex_not_mem model.sources stemName h]
  exact ⟨h1, fun w => h1 htdemucs6s "banjo".data w (by decide),
    ⟨_, rfl, rfl⟩⟩

/-- Witness for C7: a stem name outside the declared sources is rejected
at a concrete model and waveform. -/
theorem isolate_stem_not_found_witness :
    isolate_stem_waveform htdemucs6s "cello".data 3 =
      .error (.stemNotFound "cello".data) :=
  isolate_stem_not_found.1 htdemucs6s "cello".data 3 (by decide)

end TabsAI
